import Mathlib

/-!
# ForeachMember: a shallow embedding of `ForeachMember.h`

The header enumerates the non-static data members of an aggregate `T` in two
stages.

* `detail::Detector` (compile time): `call` counts the members by trying
  `T{probe, ..., probe}` with more and more probes; the conversions performed
  by the last well-formed initialisation report every member type, in order,
  to `memberTypeCallback`.
* `foreachMember` (run time): a lambda with the mutable capture
  `lastUnusedOffset` turns every reported type into a byte offset, and calls
  the visitor with a reference to the storage at that offset.

The embedding keeps the source's names.  Facts that the compiler supplies
(`sizeof`, `alignof`, the `<type_traits>` predicates, whether a braced
initialisation is well-formed) are data of the modelled types.
-/

namespace ForeachMember

/-! ## Machine integers -/

/-- Number of values of `std::size_t` (a 64-bit unsigned integer). -/
def SIZE_RANGE : Nat := 2 ^ 64

/-- Conversion of an `int` operand to `std::size_t` (usual arithmetic
conversions): reduction modulo `2 ^ 64`. -/
def intToSizeT (i : Int) : Nat := (i % (2 ^ 64 : Int)).toNat

/-- Conversion of a `std::size_t` value to the 32-bit `int` it is assigned to:
the low 32 bits, read as a two's complement number. -/
def sizeTToInt (n : Nat) : Int :=
  if n % 2 ^ 32 < 2 ^ 31 then ((n % 2 ^ 32 : Nat) : Int) else ((n % 2 ^ 32 : Nat) : Int) - 2 ^ 32

/-! ## Types as the header sees them -/

/-- What the header uses of a member type `Member` (cv-qualifiers removed). -/
structure TypeInfo where
  /-- Identity of the type, as compared by `std::is_same`. -/
  id : Nat
  /-- The value of `sizeof(Member)`. -/
  size : Nat
  /-- The value of `alignof(Member)`. -/
  align : Nat
  /-- The value of `std::is_move_constructible<Member>::value`. -/
  moveConstructible : Bool
  /-- The value of `std::is_standard_layout<Member>::value`. -/
  standardLayout : Bool
  /-- True when `Member` has a template converting constructor, so that
  `dummyCheck(SimpleDetector{})` is ambiguous. -/
  convertingConstructor : Bool
deriving DecidableEq

/-- The type `T` handed to `Detector<T, _>` (a reference already removed).
`init n` is the compiler's verdict on the braced initialisation of `T` from
`n` probes: `none` when it is ill-formed, otherwise the types `Member` of the
`operator Member()` conversions it performs, in evaluation order. -/
structure Target where
  /-- Identity of `std::remove_const_t<T>`. -/
  id : Nat
  /-- The value of `std::is_const<T>::value`. -/
  isConst : Bool
  /-- The value of `std::is_volatile<T>::value`. -/
  isVolatile : Bool
  /-- The value of `std::is_empty<T>::value`. -/
  isEmpty : Bool
  /-- The value of `std::is_standard_layout<T>::value`. -/
  isStandardLayout : Bool
  /-- The value of `std::is_move_assignable<T>::value`. -/
  isMoveAssignable : Bool
  /-- The value of `std::is_move_constructible<T>::value`. -/
  isMoveConstructible : Bool
  /-- Braced initialisation of `T` from `n` probes. -/
  init : Nat → Option (List TypeInfo)

/-- The compile-time rejections of the header. -/
inductive Diag where
  /-- The message "T must be aggregate ...". -/
  | notAggregate
  /-- The message "All non-static data members must be move constructible". -/
  | notMoveConstructible
  /-- The message "All non-static data members must be standard layout type". -/
  | memberNotStandardLayout
  /-- The message "All non-static data members must not have template
  converting constructor". -/
  | convertingConstructor
  /-- The expression `T{(I, *this)...}` in the body of `call(...)` is ill-formed. -/
  | illFormed
  /-- The recursion of `call` went deeper than the compiler instantiates templates. -/
  | depthExceeded
  /-- The assertion `std::is_standard_layout<std::remove_reference_t<T>>::value`. -/
  | notStandardLayout
  /-- The assertion `!std::is_volatile<std::remove_reference_t<T>>::value`. -/
  | isVolatile
deriving DecidableEq

/-! ## `detail::IsMemberConst` -/

/-- The four `static_assert`s of `IsMemberConst<T, Member>`: the list of those
that fail, in source order. -/
def IsMemberConst.asserts (T : Target) (Member : TypeInfo) : List Diag :=
  (if Member.id = T.id then [Diag.notAggregate] else []) ++
  (if Member.moveConstructible then [] else [Diag.notMoveConstructible]) ++
  (if Member.standardLayout then [] else [Diag.memberNotStandardLayout]) ++
  (if Member.convertingConstructor then [Diag.convertingConstructor] else [])

/-- The constant `IsMemberConst<T, Member>::value`. -/
def IsMemberConst.value (T : Target) (_Member : TypeInfo) : Bool :=
  T.isConst || !T.isMoveAssignable || !T.isMoveConstructible

/-! ## `detail::Detector` -/

/-- Outcome of instantiating `Detector<T, _>::call`. -/
structure Discovered where
  /-- Failed assertions and hard errors, in instantiation order. -/
  diags : List Diag
  /-- The value of `sizeof...(I)` in the `call(...)` overload finally selected. -/
  arity : Nat
  /-- Every `Member` for which `operator Member()` was instantiated. -/
  conversions : List TypeInfo
  /-- The `Member` of each `operator Member()` executed by `T{(I, *this)...}`. -/
  members : List TypeInfo

/-- The conversion `Detector::operator Member()`: the argument it passes to
`memberTypeCallback`, a null `Member *` or `const Member *`, is represented by
the type and the flag `kIsConst`.  The value it returns, `{}`, initialises a
member of the temporary `T` and is not used again; all it needs is that
`Member{}` is well-formed, which holds for the types modelled here. -/
def Detector.operatorMember (T : Target) (Member : TypeInfo) : TypeInfo × Bool :=
  (Member, IsMemberConst.value T Member)

/-- The overload set `Detector::call<I...>`, entered with `n = sizeof...(I)`.
`call(int)` is viable exactly when `T{*this, (I, *this)...}` (`n + 1` probes)
is well-formed, and then recurses as `call<0, I...>(0)`; otherwise `call(...)`
is selected, asserts `sizeof...(I) > 0 || std::is_empty<T>::value` and
evaluates `T{(I, *this)...}` (`n` probes).  Every conversion that is
considered instantiates `IsMemberConst<T, Member>` and with it the four
assertions.  The first argument bounds the instantiation depth. -/
def Detector.call (T : Target) : Nat → Nat → Discovered
  | 0, n => ⟨[Diag.depthExceeded], n, [], []⟩
  | depth + 1, n =>
    match T.init (n + 1) with
    | some ms =>
      let r := Detector.call T depth (n + 1)
      ⟨ms.flatMap (IsMemberConst.asserts T) ++ r.diags, r.arity, ms ++ r.conversions, r.members⟩
    | none =>
      let assertion := if 0 < n ∨ T.isEmpty = true then [] else [Diag.notAggregate]
      match T.init n with
      | some ms => ⟨assertion ++ ms.flatMap (IsMemberConst.asserts T), n, ms, ms⟩
      | none => ⟨assertion ++ [Diag.illFormed], n, [], []⟩

/-- The function `detail::foreachMemberType<T>(callback)`: starts
`Detector{callback}.call(0)` with an empty pack; the conversions executed at
the end invoke `callback` once each, in order. -/
def foreachMemberType {S : Type} (T : Target) (depth : Nat)
    (callback : TypeInfo × Bool → S → S) (s : S) : List Diag × S :=
  let d := Detector.call T depth 0
  (d.diags, d.members.foldl (fun acc Member => callback (Detector.operatorMember T Member) acc) s)

/-! ## `foreachMember` -/

/-- The reference `const_cast<Member &>(member)` handed to the visitor. -/
structure Ref where
  /-- The referenced type, cv-qualifiers removed. -/
  type : TypeInfo
  /-- Whether the reference is const-qualified. -/
  isConst : Bool
  /-- The value of `offset`: the referenced address is `addr + offset`. -/
  offset : Nat
deriving DecidableEq

/-- Storage around the instance `t`, byte by byte: the byte at `addr + offset`,
for every `offset`.  Offsets stand for addresses because `addr` is the same in
every access; `B` is the type of a byte. -/
abbrev Storage (B : Type) : Type := Nat → B

/-- The bytes of an object of `size` bytes that starts at `offset`. -/
def readBytes {B : Type} (t : Storage B) : Nat → Nat → List B
  | _, 0 => []
  | offset, size + 1 => t offset :: readBytes t (offset + 1) size

/-- A store through a reference to an object of `size` bytes at `offset`: the
bytes `offset, ..., offset + size - 1` take the bytes of `v`, in order (a
byte for which `v` has none keeps its content); no other byte changes. -/
def writeBytes {B : Type} (t : Storage B) (offset size : Nat) (v : List B) : Storage B :=
  fun a => if offset ≤ a ∧ a < offset + size then (v[a - offset]?).getD (t a) else t a

/-- A visitor (the parameter `callback` of `foreachMember`): from the
reference, the `sizeof(Member)` bytes it currently refers to and the
visitor's own state, the new state and the bytes assigned through the
reference, if any. -/
abbrev Visitor (σ B : Type) : Type := Ref → List B → σ → σ × Option (List B)

/-- State of one `foreachMember` call while the members are visited. -/
structure Walk (σ B : Type) where
  /-- The init-capture `lastUnusedOffset = 0`, of type `int`. -/
  lastUnusedOffset : Int
  /-- State of the visitor. -/
  visitor : σ
  /-- Storage of `t`. -/
  storage : Storage B

/-- The arithmetic of the lambda in `foreachMember`: the value of `offset`,
computed in `std::size_t` from the `int` cursor, and the cursor after
`lastUnusedOffset = offset + sizeof(Member)`. -/
def nextOffset (lastUnusedOffset : Int) (Member : TypeInfo) : Nat × Int :=
  let memAlignment := Member.align
  let offset :=
    ((intToSizeT lastUnusedOffset + memAlignment) % SIZE_RANGE + SIZE_RANGE - 1) % SIZE_RANGE
      / memAlignment * memAlignment % SIZE_RANGE
  (offset, sizeTToInt ((offset + Member.size) % SIZE_RANGE))

/-- The lambda passed to `foreachMemberType` by `foreachMember`, applied to
`dummyMember`.  The reference `member` covers the `sizeof(Member)` bytes from
`addr + offset` on, whatever lies there.  An assignment through a
const-qualified reference does not compile, so bytes returned for one are not
stored. -/
def foreachMember.lambda {σ B : Type} (callback : Visitor σ B) (dummyMember : TypeInfo × Bool)
    (w : Walk σ B) : Walk σ B :=
  let Member := dummyMember.1
  let step := nextOffset w.lastUnusedOffset Member
  let offset := step.1
  let member : Ref := ⟨Member, dummyMember.2, offset⟩
  let r := callback member (readBytes w.storage offset Member.size) w.visitor
  let storage :=
    match r.2 with
    | some v => if dummyMember.2 then w.storage else writeBytes w.storage offset Member.size v
    | none => w.storage
  ⟨step.2, r.1, storage⟩

/-- The function `foreachMember(t, callback)`.  The two assertions at its end
are checked at compile time like those of the detector; when any assertion
fails nothing runs. -/
def foreachMember {σ B : Type} (T : Target) (depth : Nat) (callback : Visitor σ B)
    (s : σ) (t : Storage B) : Except (List Diag) (σ × Storage B) :=
  let r := foreachMemberType T depth (foreachMember.lambda callback) (⟨0, s, t⟩ : Walk σ B)
  let diags := r.1 ++ (if T.isStandardLayout then [] else [Diag.notStandardLayout]) ++
    (if T.isVolatile then [Diag.isVolatile] else [])
  if diags.isEmpty then Except.ok (r.2.visitor, r.2.storage) else Except.error diags

/-! ## Aggregates -/

/-- A non-static data member of an aggregate, in the layout the compiler chose. -/
structure Field where
  /-- Type of the member, cv-qualifiers removed. -/
  type : TypeInfo
  /-- Whether the member is declared const. -/
  isConst : Bool
  /-- Distance in bytes from the address of the instance to the member. -/
  offset : Nat
deriving DecidableEq

/-- An aggregate class without base classes: its qualification, its traits as
`<type_traits>` reports them, and its non-static data members in declaration
order. -/
structure Aggregate where
  /-- Identity of the class, cv-qualifiers removed. -/
  id : Nat
  /-- Whether the instance handed to `foreachMember` is of const type. -/
  isConst : Bool
  /-- Whether that type is volatile. -/
  isVolatile : Bool
  /-- The value of `std::is_standard_layout`. -/
  isStandardLayout : Bool
  /-- The value of `std::is_move_assignable`. -/
  isMoveAssignable : Bool
  /-- The value of `std::is_move_constructible`. -/
  isMoveConstructible : Bool
  /-- Non-static data members, in declaration order. -/
  fields : List Field

/-- An aggregate as a `Target`.  Aggregate initialisation accepts at most as
many initialiser clauses as there are members and initialises the members in
declaration order, converting the i-th probe to the type of the i-th member
(every member being of a class or scalar type that a probe converts to and
that `{}` initialises, so that no brace is elided and `operator Member()` can
return `{}`); a class without members is empty. -/
def Aggregate.toTarget (A : Aggregate) : Target where
  id := A.id
  isConst := A.isConst
  isVolatile := A.isVolatile
  isEmpty := A.fields.isEmpty
  isStandardLayout := A.isStandardLayout
  isMoveAssignable := A.isMoveAssignable
  isMoveConstructible := A.isMoveConstructible
  init := fun n => if n ≤ A.fields.length then some ((A.fields.take n).map Field.type) else none

/-- The compile-time preconditions of `foreachMember` on an aggregate:
standard layout, not volatile, and every member type move constructible,
standard layout, without template converting constructor (and other than the
class itself, which no member can be). -/
def Aggregate.preconditions (A : Aggregate) : Bool :=
  A.isStandardLayout && !A.isVolatile &&
    A.fields.all (fun f => f.type.moveConstructible && f.type.standardLayout &&
      !f.type.convertingConstructor && decide (f.type.id ≠ A.id))

/-! ## Observing a traversal -/

/-- A visitor that appends every reference it receives, with the bytes found
there, to its state and assigns nothing. -/
def recorder {B : Type} : Visitor (List (Ref × List B)) B :=
  fun member v seen => (seen ++ [(member, v)], none)

/-- A visitor instrumented with a counter of its invocations. -/
def countCalls {σ B : Type} (callback : Visitor σ B) : Visitor (σ × Nat) B :=
  fun member v s => (((callback member v s.1).1, s.2 + 1), (callback member v s.1).2)

/-- The offsets the lambda of `foreachMember` computes when it is called for a
sequence of member types, starting with `lastUnusedOffset = 0`. -/
def walkOffsets (members : List TypeInfo) : List Nat :=
  ((members.foldl (fun acc Member => foreachMember.lambda recorder (Member, false) acc)
    (⟨0, [], fun _ => ()⟩ : Walk (List (Ref × List Unit)) Unit)).visitor).map
      (fun p => p.1.offset)

/-- The offsets of successive `nextOffset` steps from a given cursor. -/
def offsetsFrom : Int → List TypeInfo → List Nat
  | _, [] => []
  | lastUnusedOffset, Member :: rest =>
    (nextOffset lastUnusedOffset Member).1 :: offsetsFrom (nextOffset lastUnusedOffset Member).2 rest

/-! ## Reference computations in unbounded arithmetic -/

/-- The offsets of the same cursor walk computed with unbounded integers. -/
def exactOffsetsFrom : Nat → List TypeInfo → List Nat
  | _, [] => []
  | cursor, Member :: rest =>
    let offset := (cursor + Member.align - 1) / Member.align * Member.align
    offset :: exactOffsetsFrom (offset + Member.size) rest

/-- Whether the exact running end offset `offset + sizeof(Member)` stays below
`2 ^ 31` at every step. -/
def fitsInt : Nat → List TypeInfo → Bool
  | _, [] => true
  | cursor, Member :: rest =>
    let offset := (cursor + Member.align - 1) / Member.align * Member.align
    decide (offset + Member.size < 2 ^ 31) && fitsInt (offset + Member.size) rest

/-- Every offset is a multiple of the alignment of its member type. -/
def Aligned (members : List TypeInfo) (offsets : List Nat) : Prop :=
  ∀ p ∈ members.zip offsets, p.1.align ∣ p.2

/-- The storage ranges are disjoint and in increasing order:
`offset_i + sizeof(M_i) ≤ offset_j` for all `i < j`. -/
def DisjointIncreasing (members : List TypeInfo) (offsets : List Nat) : Prop :=
  (members.zip offsets).Pairwise (fun p q => p.2 + p.1.size ≤ q.2)

/-- A layout without more padding than alignment requires: every field lies
at the least multiple of its alignment that is not before the end of the
preceding field (the first at `0`). -/
def NaturalLayoutFrom : Nat → List Field → Prop
  | _, [] => True
  | cursor, f :: rest =>
    (f.type.align ∣ f.offset ∧ cursor ≤ f.offset ∧
      ∀ m, f.type.align ∣ m → cursor ≤ m → f.offset ≤ m) ∧
    NaturalLayoutFrom (f.offset + f.type.size) rest

/-- The bytes of an object after an assignment of the bytes `v`: the leading
bytes are those of `v`, as far as `v` and the object reach. -/
def assignBytes {B : Type} : List B → List B → List B
  | [], _ => []
  | old :: olds, [] => old :: olds
  | _ :: olds, b :: bs => b :: assignBytes olds bs

/-- Field-wise traversal of an instance: the visitor is applied to the
declared members in declaration order, each through a reference to the
member itself (its own offset and size); bytes assigned through a non-const
reference are stored in that member. -/
def visitFields {σ B : Type} (callback : Visitor σ B) (isConst : Bool) :
    List Field → σ × Storage B → σ × Storage B
  | [], st => st
  | f :: rest, st =>
    let r := callback ⟨f.type, isConst, f.offset⟩ (readBytes st.2 f.offset f.type.size) st.1
    let storage :=
      match r.2 with
      | some v => if isConst then st.2 else writeBytes st.2 f.offset f.type.size v
      | none => st.2
    visitFields callback isConst rest (r.1, storage)

/-- Traversal of the member values alone through non-const references: the
visitor sees each member's bytes in declaration order; a member it assigns to
takes the assigned bytes, any other member keeps its bytes. -/
def visitValues {σ B : Type} (callback : Visitor σ B) :
    List (Field × List B) → σ → σ × List (List B)
  | [], s => (s, [])
  | (f, v) :: rest, s =>
    let r := callback ⟨f.type, false, f.offset⟩ v s
    let tail := visitValues callback rest r.1
    let after :=
      match r.2 with
      | some w => assignBytes v w
      | none => v
    (tail.1, after :: tail.2)

/-! ## The types and instances of `example.cpp`

Sizes and alignments are those of x86-64 with libstdc++. -/

/-- Values held by the members of the test structures (a `double` holding a
whole number is given by that number). -/
inductive Value where
  | char (c : Char)
  | int (n : Int)
  | string (s : String)
  | vector (xs : List Int)
  | double (n : Int)
  | thread
deriving DecidableEq

/-- The bytes of the test instances, abstractly: the first byte of an object
stands for the value the object holds, every other byte (the further bytes
of an object, padding) is `rest`. -/
inductive Cell where
  | first (v : Value)
  | rest
deriving DecidableEq

/-- The bytes of an object of `size` bytes, `size` at least `1`, that holds `v`. -/
def represent (v : Value) (size : Nat) : List Cell :=
  Cell.first v :: List.replicate (size - 1) Cell.rest

/-- The type `char`. -/
def charType : TypeInfo := ⟨1, 1, 1, true, true, false⟩

/-- The type `int`. -/
def intType : TypeInfo := ⟨2, 4, 4, true, true, false⟩

/-- The type `std::string`. -/
def stringType : TypeInfo := ⟨3, 32, 8, true, true, false⟩

/-- The type `std::vector<int>`. -/
def vectorType : TypeInfo := ⟨4, 24, 8, true, true, false⟩

/-- The type `double`. -/
def doubleType : TypeInfo := ⟨5, 8, 8, true, true, false⟩

/-- The type `std::thread`. -/
def threadType : TypeInfo := ⟨6, 8, 8, true, true, false⟩

/-- The type `std::array<char, 4294967296>`. -/
def bigArrayType : TypeInfo := ⟨7, 2 ^ 32, 1, true, true, false⟩

/-- The class `struct M { int x; M() = default; M(M &&) = default;
M &operator=(M &&) = delete; };`: move constructible, not move assignable. -/
def moveOnlyType : TypeInfo := ⟨9, 4, 4, true, true, false⟩

/-- The structure `struct A { char c; std::string s; int i; }` of
`TEST(simple, example)`. -/
def exampleStruct : Aggregate :=
  ⟨100, false, false, true, true, true,
    [⟨charType, false, 0⟩, ⟨stringType, false, 8⟩, ⟨intType, false, 40⟩]⟩

/-- The instance of `TEST(simple, example)`: `c = 'c'`, `s = "test"`, `i = 42`. -/
def exampleInstance : Storage Cell := fun offset =>
  if offset = 0 then Cell.first (Value.char 'c')
  else if offset = 8 then Cell.first (Value.string "test")
  else if offset = 40 then Cell.first (Value.int 42)
  else Cell.rest

/-- What `operator<<` writes for the object that the bytes represent. -/
def stringize : List Cell → String
  | Cell.first (Value.char c) :: _ => String.singleton c
  | Cell.first (Value.int n) :: _ => toString n
  | Cell.first (Value.string s) :: _ => s
  | _ => ""

/-- The visitor `[&sout](auto &&v) { sout << v << ", "; }`. -/
def streamOut : Visitor String Cell :=
  fun _ v sout => (sout ++ stringize v ++ ", ", none)

/-- Storage whose content plays no part. -/
def blankStorage : Storage Cell := fun _ => Cell.rest

/-- The empty structure of `TEST(simple, empty)`. -/
def emptyStruct : Aggregate := ⟨101, false, false, true, true, true, []⟩

/-- The structure of `TEST(simple, plain_struct)`:
`int i; std::string s; char c; std::vector<int> v; double d; std::string s2;`. -/
def plainStruct : Aggregate :=
  ⟨102, false, false, true, true, true,
    [⟨intType, false, 0⟩, ⟨stringType, false, 8⟩, ⟨charType, false, 40⟩,
     ⟨vectorType, false, 48⟩, ⟨doubleType, false, 72⟩, ⟨stringType, false, 80⟩]⟩

/-- The instance of `TEST(simple, plain_struct)`. -/
def plainInstance : Storage Cell := fun offset =>
  if offset = 0 then Cell.first (Value.int 100)
  else if offset = 8 then Cell.first (Value.string "hello")
  else if offset = 40 then Cell.first (Value.char 'a')
  else if offset = 48 then Cell.first (Value.vector [3, 4, 5])
  else if offset = 72 then Cell.first (Value.double 5)
  else if offset = 80 then Cell.first (Value.string "world")
  else Cell.rest

/-- The visitor `checker` of `TEST(simple, plain_struct)`: every overload
increments `idx`; the overload for `int &` also assigns `42`. -/
def checker : Visitor Nat Cell :=
  fun member _ idx =>
    (idx + 1, if member.type.id = intType.id then some (represent (Value.int 42) 4) else none)

/-- The structure `struct A { int i; std::thread t; }` of
`TEST(constness, normal)`, for the instance `a`. -/
def normalStruct : Aggregate :=
  ⟨103, false, false, true, true, true, [⟨intType, false, 0⟩, ⟨threadType, false, 8⟩]⟩

/-- The same structure for the instance `ca` of type `const A`. -/
def normalStructConst : Aggregate :=
  ⟨103, true, false, true, false, false, [⟨intType, false, 0⟩, ⟨threadType, false, 8⟩]⟩

/-- The structure `struct A { int i; const std::thread t; }` of
`TEST(constness, has_const_member)`, which is neither move assignable nor
move constructible. -/
def hasConstMember : Aggregate :=
  ⟨104, false, false, true, false, false, [⟨intType, false, 0⟩, ⟨threadType, true, 8⟩]⟩

/-- The structure `struct A { int i; M m; }` with `M` as in `moveOnlyType`:
no member is const, and `A` is not move assignable because `M` is not. -/
def moveOnlyMember : Aggregate :=
  ⟨105, false, false, true, false, true, [⟨intType, false, 0⟩, ⟨moveOnlyType, false, 4⟩]⟩

/-- The class `struct K { int x; const K &operator=(const K &) const; };`,
whose assignment applies to a const object. -/
def constAssignType : TypeInfo := ⟨14, 4, 4, true, true, false⟩

/-- The structure `struct A { int i; const K k; }` with `K` as in
`constAssignType`: the member `k` is const, and `A` is move assignable and
move constructible all the same. -/
def constAssignable : Aggregate :=
  ⟨112, false, false, true, true, true, [⟨intType, false, 0⟩, ⟨constAssignType, true, 4⟩]⟩

/-- The structure `struct Huge { std::array<char, 4294967296> a; char b; }`;
`b` lies behind `a`, at offset `2 ^ 32`. -/
def hugeStruct : Aggregate :=
  ⟨106, false, false, true, true, true, [⟨bigArrayType, false, 0⟩, ⟨charType, false, 2 ^ 32⟩]⟩

/-- The type `std::vector<std::runtime_error>`. -/
def errorVectorType : TypeInfo := ⟨10, 24, 8, true, true, false⟩

/-- The type `std::unique_ptr<std::runtime_error>`. -/
def uniquePtrType : TypeInfo := ⟨11, 8, 8, true, true, false⟩

/-- The type `std::runtime_error *`. -/
def pointerType : TypeInfo := ⟨12, 8, 8, true, true, false⟩

/-- The type `struct A { std::optional<int> u; }` nested in the documented
class. -/
def optionalHolderType : TypeInfo := ⟨13, 8, 4, true, true, false⟩

/-- The class `T` of `TEST(documentation, example)`:
`double d; const std::vector<U> v; std::unique_ptr<U> p; U *ptr; A a; std::thread t;`.
The const member makes it not move assignable. -/
def documentationStruct : Aggregate :=
  ⟨110, false, false, true, false, true,
    [⟨doubleType, false, 0⟩, ⟨errorVectorType, true, 8⟩, ⟨uniquePtrType, false, 32⟩,
     ⟨pointerType, false, 40⟩, ⟨optionalHolderType, false, 48⟩, ⟨threadType, false, 56⟩]⟩

/-- The structure `struct Q { char a; alignas(2) char b; char c; char d; };`:
`b` lies at offset `2`, `c` at `3` and `d` at `4`. -/
def alignedChars : Aggregate :=
  ⟨111, false, false, true, true, true,
    [⟨charType, false, 0⟩, ⟨charType, false, 2⟩, ⟨charType, false, 3⟩, ⟨charType, false, 4⟩]⟩

/-- An instance of `alignedChars` with `a = 'a'`, `b = 'b'`, `c = 'c'` and
`d = 'd'`. -/
def alignedCharsInstance : Storage Cell := fun offset =>
  if offset = 0 then Cell.first (Value.char 'a')
  else if offset = 2 then Cell.first (Value.char 'b')
  else if offset = 3 then Cell.first (Value.char 'c')
  else if offset = 4 then Cell.first (Value.char 'd')
  else Cell.rest

/-- The structure `struct S { char c; alignas(16) int i; };`: the member `i`
has type `int`, of alignment `4`, and lies at offset `16`. -/
def overAligned : Aggregate :=
  ⟨109, false, false, true, true, true, [⟨charType, false, 0⟩, ⟨intType, false, 16⟩]⟩

/-- An instance of `overAligned` with `c = 'c'` and `i = 42`. -/
def overAlignedInstance : Storage Cell := fun offset =>
  if offset = 0 then Cell.first (Value.char 'c')
  else if offset = 16 then Cell.first (Value.int 42)
  else Cell.rest

/-- The structure `struct Y { char a; alignas(4) char b; char c; int d; };`:
`b` lies at offset `4`, `c` at `5` and `d` at `8`. -/
def alignedMixed : Aggregate :=
  ⟨113, false, false, true, true, true,
    [⟨charType, false, 0⟩, ⟨charType, false, 4⟩, ⟨charType, false, 5⟩, ⟨intType, false, 8⟩]⟩

/-- An instance of `alignedMixed` with `a = 'a'`, `b = 'b'`, `c = 'c'` and
`d = 100`. -/
def alignedMixedInstance : Storage Cell := fun offset =>
  if offset = 0 then Cell.first (Value.char 'a')
  else if offset = 4 then Cell.first (Value.char 'b')
  else if offset = 5 then Cell.first (Value.char 'c')
  else if offset = 8 then Cell.first (Value.int 100)
  else Cell.rest

/-! ## Rounding up -/

/-- The rounded-up cursor is a multiple of the alignment. -/
theorem roundUp_dvd (c a : Nat) : a ∣ (c + a - 1) / a * a := Dvd.intro_left _ rfl

/-- The rounded-up cursor is not below the cursor. -/
theorem roundUp_ge (c a : Nat) (ha : 0 < a) : c ≤ (c + a - 1) / a * a := by
  have h := Nat.div_add_mod (c + a - 1) a
  have h2 := Nat.mod_lt (c + a - 1) ha
  have h3 : (c + a - 1) / a * a = a * ((c + a - 1) / a) := Nat.mul_comm _ _
  omega

/-- No multiple of the alignment lies between the cursor and its rounding. -/
theorem roundUp_least (c a m : Nat) (ha : 0 < a) (hm : a ∣ m) (hc : c ≤ m) :
    (c + a - 1) / a * a ≤ m := by
  obtain ⟨k, rfl⟩ := hm
  have : (c + a - 1) / a ≤ k := by
    rw [Nat.div_le_iff_le_mul_add_pred ha]
    have : a * k + (a - 1) = a * k + a - 1 := by omega
    omega
  calc (c + a - 1) / a * a ≤ k * a := Nat.mul_le_mul_right _ this
    _ = a * k := Nat.mul_comm _ _

/-- While the exact end offset stays below `2 ^ 31`, one step of the lambda
computes the exact offset and the exact new cursor. -/
theorem nextOffset_exact (c : Nat) (Member : TypeInfo) (hc : c < 2 ^ 31)
    (hfit : (c + Member.align - 1) / Member.align * Member.align + Member.size < 2 ^ 31) :
    nextOffset (c : Int) Member =
      ((c + Member.align - 1) / Member.align * Member.align,
        (((c + Member.align - 1) / Member.align * Member.align + Member.size : Nat) : Int)) := by
  have hcast : intToSizeT (c : Int) = c := by unfold intToSizeT; omega
  obtain ⟨id, size, a, mc, sl, cc⟩ := Member
  simp only at hfit ⊢
  have key : ((c + a) % SIZE_RANGE + SIZE_RANGE - 1) % SIZE_RANGE / a * a =
      (c + a - 1) / a * a := by
    unfold SIZE_RANGE
    rcases Nat.eq_zero_or_pos a with ha | ha
    · subst ha; simp
    · rcases Nat.eq_zero_or_pos c with hc0 | hc0
      · subst hc0
        have h1 : (0 + a - 1) / a = 0 := Nat.div_eq_of_lt (by omega)
        have h2 : ((0 + a) % 2 ^ 64 + 2 ^ 64 - 1) % 2 ^ 64 / a = 0 := by
          apply Nat.div_eq_of_lt
          have := Nat.mod_le (0 + a) (2 ^ 64)
          omega
        rw [h1, h2]
      · have h1 : a ≤ (c + a - 1) / a * a := by
          have : 1 ≤ (c + a - 1) / a := by
            rw [Nat.le_div_iff_mul_le ha]; omega
          calc a = 1 * a := (Nat.one_mul a).symm
            _ ≤ (c + a - 1) / a * a := Nat.mul_le_mul_right _ this
        have h2 : ((c + a) % 2 ^ 64 + 2 ^ 64 - 1) % 2 ^ 64 = c + a - 1 := by omega
        rw [h2]
  simp only [nextOffset, hcast, key]
  have hlt : (c + a - 1) / a * a + size < 2 ^ 31 := hfit
  have hm : (c + a - 1) / a * a % SIZE_RANGE = (c + a - 1) / a * a := by
    unfold SIZE_RANGE; omega
  rw [hm]
  have hm2 : ((c + a - 1) / a * a + size) % SIZE_RANGE = (c + a - 1) / a * a + size := by
    unfold SIZE_RANGE; omega
  rw [hm2]
  congr 1
  unfold sizeTToInt
  split <;> omega

/-! ## The cursor walk -/

/-- The offsets recorded over a sequence of member types are those of
successive `nextOffset` steps. -/
theorem foldl_recorder_offsets {B : Type} (flag : Bool) (members : List TypeInfo) (c : Int)
    (seen : List (Ref × List B)) (mem : Storage B) :
    ((members.foldl (fun acc Member => foreachMember.lambda recorder (Member, flag) acc)
      (⟨c, seen, mem⟩ : Walk (List (Ref × List B)) B)).visitor).map (fun p => p.1.offset) =
      seen.map (fun p => p.1.offset) ++ offsetsFrom c members := by
  induction members generalizing c seen mem with
  | nil => simp [offsetsFrom]
  | cons M rest ih =>
    have hstep : foreachMember.lambda recorder (M, flag) (⟨c, seen, mem⟩ : Walk (List (Ref × List B)) B) =
        ⟨(nextOffset c M).2, seen ++ [(⟨M, flag, (nextOffset c M).1⟩, readBytes mem (nextOffset c M).1 M.size)], mem⟩ := rfl
    rw [List.foldl_cons, hstep, ih]
    simp [offsetsFrom]

/-- The offsets of the lambda, unfolded step by step. -/
theorem walkOffsets_eq_offsetsFrom (members : List TypeInfo) :
    walkOffsets members = offsetsFrom 0 members := by
  unfold walkOffsets
  rw [foldl_recorder_offsets]
  simp

/-- Below the `int` range the machine offsets are the exact offsets. -/
theorem offsetsFrom_eq_exact (members : List TypeInfo) (c : Nat) (hc : c < 2 ^ 31)
    (hfit : fitsInt c members = true) :
    offsetsFrom (c : Int) members = exactOffsetsFrom c members := by
  induction members generalizing c with
  | nil => simp [offsetsFrom, exactOffsetsFrom]
  | cons M rest ih =>
    simp only [fitsInt, Bool.and_eq_true, decide_eq_true_eq] at hfit
    obtain ⟨h1, h2⟩ := hfit
    simp only [offsetsFrom, exactOffsetsFrom, nextOffset_exact c M hc h1]
    rw [ih _ h1 h2]

/-- One offset is computed per member type. -/
theorem offsetsFrom_length (members : List TypeInfo) (c : Int) :
    (offsetsFrom c members).length = members.length := by
  induction members generalizing c with
  | nil => rfl
  | cons M rest ih => simp [offsetsFrom, ih]

/-- What the recording visitor has seen after the lambda ran over a sequence of
member types: one reference per type, in order; the storage is untouched. -/
theorem foldl_recorder {B : Type} (flag : Bool) (members : List TypeInfo) (c : Int)
    (seen : List (Ref × List B)) (mem : Storage B) :
    (members.foldl (fun acc Member => foreachMember.lambda recorder (Member, flag) acc)
      (⟨c, seen, mem⟩ : Walk (List (Ref × List B)) B)).visitor =
      seen ++ List.zipWith (fun M o => ((⟨M, flag, o⟩ : Ref), readBytes mem o M.size)) members (offsetsFrom c members) ∧
    (members.foldl (fun acc Member => foreachMember.lambda recorder (Member, flag) acc)
      (⟨c, seen, mem⟩ : Walk (List (Ref × List B)) B)).storage = mem := by
  induction members generalizing c seen with
  | nil => simp [offsetsFrom]
  | cons M rest ih =>
    have hstep : foreachMember.lambda recorder (M, flag) (⟨c, seen, mem⟩ : Walk (List (Ref × List B)) B) =
        ⟨(nextOffset c M).2, seen ++ [(⟨M, flag, (nextOffset c M).1⟩, readBytes mem (nextOffset c M).1 M.size)], mem⟩ := rfl
    rw [List.foldl_cons, hstep]
    obtain ⟨h1, h2⟩ := ih (nextOffset c M).2 (seen ++ [(⟨M, flag, (nextOffset c M).1⟩, readBytes mem (nextOffset c M).1 M.size)])
    rw [h1, h2]
    simp [offsetsFrom]

/-- The recorded references carry the member types, in order. -/
theorem zipWith_recorder_types {B : Type} (flag : Bool) (mem : Storage B) (members : List TypeInfo)
    (offsets : List Nat) (hlen : offsets.length = members.length) :
    (List.zipWith (fun M o => ((⟨M, flag, o⟩ : Ref), readBytes mem o M.size)) members offsets).map (fun p => p.1.type) =
      members := by
  induction members generalizing offsets with
  | nil => simp
  | cons M rest ih =>
    cases offsets with
    | nil => simp at hlen
    | cons o os =>
      simp only [List.length_cons, Nat.add_right_cancel_iff] at hlen
      simp [ih os hlen]

/-- The lambda invokes the visitor once per member type. -/
theorem foldl_countCalls {σ B : Type} (callback : Visitor σ B) (flag : Bool)
    (members : List TypeInfo) (w : Walk (σ × Nat) B) :
    ((members.foldl (fun acc Member => foreachMember.lambda (countCalls callback) (Member, flag) acc)
      w).visitor).2 = w.visitor.2 + members.length := by
  induction members generalizing w with
  | nil => simp
  | cons M rest ih =>
    rw [List.foldl_cons, ih]
    have hstep : (foreachMember.lambda (countCalls callback) (M, flag) w).visitor.2 =
        w.visitor.2 + 1 := rfl
    rw [hstep, List.length_cons]
    omega

/-- A store through a reference leaves every byte outside the referenced
object unchanged. -/
theorem writeBytes_outside {B : Type} (t : Storage B) (offset size : Nat) (v : List B) (a : Nat)
    (ha : a < offset ∨ offset + size ≤ a) : writeBytes t offset size v a = t a := by
  unfold writeBytes
  rw [if_neg]
  omega

/-- The bytes of an object depend only on the storage the object occupies. -/
theorem readBytes_congr {B : Type} (t1 t : Storage B) (size offset : Nat)
    (h : ∀ a, offset ≤ a → a < offset + size → t1 a = t a) :
    readBytes t1 offset size = readBytes t offset size := by
  induction size generalizing offset with
  | zero => rfl
  | succ n ih =>
    simp only [readBytes]
    rw [h offset (le_refl _) (by omega),
      ih (offset + 1) (fun a h1 h2 => h a (by omega) (by omega))]

/-- After a store through a reference the object holds the assigned bytes. -/
theorem readBytes_writeBytes {B : Type} (t : Storage B) (size offset : Nat) (v : List B) :
    readBytes (writeBytes t offset size v) offset size =
      assignBytes (readBytes t offset size) v := by
  induction size generalizing offset v with
  | zero => rfl
  | succ n ih =>
    cases v with
    | nil =>
      have h : readBytes (writeBytes t offset (n + 1) []) offset (n + 1) =
          readBytes t offset (n + 1) :=
        readBytes_congr _ _ _ _ (fun a _ _ => by simp [writeBytes])
      rw [h]
      rfl
    | cons b bs =>
      simp only [readBytes, assignBytes]
      congr 1
      · simp [writeBytes]
      · rw [← ih (offset + 1) bs]
        apply readBytes_congr
        intro a h1 h2
        have hk : a - offset = (a - (offset + 1)) + 1 := by omega
        have c1 : offset ≤ a ∧ a < offset + (n + 1) := by omega
        have c2 : offset + 1 ≤ a ∧ a < offset + 1 + n := by omega
        simp only [writeBytes, c1, c2, and_self, if_true]
        rw [hk, List.getElem?_cons_succ]

/-- An object has `size` bytes. -/
theorem readBytes_length {B : Type} (t : Storage B) (size offset : Nat) :
    (readBytes t offset size).length = size := by
  induction size generalizing offset with
  | zero => rfl
  | succ n ih => simp [readBytes, ih]

/-- Assigning as many bytes as the object has replaces all of them. -/
theorem assignBytes_of_length_eq {B : Type} (old v : List B) (h : old.length = v.length) :
    assignBytes old v = v := by
  induction old generalizing v with
  | nil =>
    cases v with
    | nil => rfl
    | cons b bs => simp at h
  | cons o os ih =>
    cases v with
    | nil => simp at h
    | cons b bs =>
      simp only [List.length_cons, Nat.add_right_cancel_iff] at h
      simp [assignBytes, ih bs h]

/-- Field-wise traversal leaves every byte outside the fields unchanged. -/
theorem visitFields_frame {σ B : Type} (callback : Visitor σ B) (flag : Bool) (fields : List Field)
    (st : σ × Storage B) (a : Nat)
    (ha : ∀ f ∈ fields, a < f.offset ∨ f.offset + f.type.size ≤ a) :
    (visitFields callback flag fields st).2 a = st.2 a := by
  induction fields generalizing st with
  | nil => rfl
  | cons f rest ih =>
    simp only [visitFields]
    rw [ih _ (fun g hg => ha g (List.mem_cons_of_mem _ hg))]
    simp only
    split
    · split
      · rfl
      · exact writeBytes_outside _ _ _ _ _ (ha f (List.mem_cons_self _ _))
    · rfl

/-- With members that follow one another without overlap, field-wise
traversal through non-const references acts on each member's bytes
separately. -/
theorem visitFields_eq_visitValues {σ B : Type} (callback : Visitor σ B) (fields : List Field)
    (s : σ) (t : Storage B)
    (hdisjoint : fields.Pairwise (fun f g => f.offset + f.type.size ≤ g.offset)) :
    (visitFields callback false fields (s, t)).1 =
      (visitValues callback (fields.map (fun f => (f, readBytes t f.offset f.type.size))) s).1 ∧
    fields.map (fun f => readBytes (visitFields callback false fields (s, t)).2
        f.offset f.type.size) =
      (visitValues callback (fields.map (fun f => (f, readBytes t f.offset f.type.size))) s).2 := by
  induction fields generalizing s t with
  | nil => simp [visitFields, visitValues]
  | cons f rest ih =>
    rw [List.pairwise_cons] at hdisjoint
    obtain ⟨hf, hrest⟩ := hdisjoint
    have hupd : ∀ (w : Option (List B)), ∃ t1 : Storage B,
        (match w with
          | some v => if false = true then t else writeBytes t f.offset f.type.size v
          | none => t) = t1 ∧
        (∀ a, a < f.offset ∨ f.offset + f.type.size ≤ a → t1 a = t a) ∧
        readBytes t1 f.offset f.type.size =
          (match w with
            | some v => assignBytes (readBytes t f.offset f.type.size) v
            | none => readBytes t f.offset f.type.size) := by
      intro w
      cases w with
      | none => exact ⟨t, rfl, fun _ _ => rfl, rfl⟩
      | some v =>
        refine ⟨writeBytes t f.offset f.type.size v, by simp, ?_, ?_⟩
        · intro a ha
          exact writeBytes_outside _ _ _ _ _ ha
        · exact readBytes_writeBytes _ _ _ _
    obtain ⟨t1, ht1, hother, hself⟩ :=
      hupd (callback ⟨f.type, false, f.offset⟩ (readBytes t f.offset f.type.size) s).2
    have hsame : rest.map (fun g => (g, readBytes t1 g.offset g.type.size)) =
        rest.map (fun g => (g, readBytes t g.offset g.type.size)) := by
      apply List.map_congr_left
      intro g hg
      have hle := hf g hg
      rw [readBytes_congr t1 t _ _ (fun a h1 _ => hother a (Or.inr (by omega)))]
    obtain ⟨ih1, ih2⟩ := ih
      (callback ⟨f.type, false, f.offset⟩ (readBytes t f.offset f.type.size) s).1 t1 hrest
    rw [hsame] at ih1 ih2
    simp only [List.map_cons, visitFields, visitValues, ht1]
    refine ⟨ih1, ?_⟩
    rw [List.cons.injEq]
    refine ⟨?_, ih2⟩
    rw [readBytes_congr _ t1 _ _ (fun a _ h2 => visitFields_frame callback false rest _ a
      (fun g hg => Or.inl (by have := hf g hg; omega)))]
    exact hself

/-- Every recorded reference carries the flag it was created with. -/
theorem foldl_recorder_isConst {B : Type} (flag : Bool) (members : List TypeInfo) (c : Int)
    (mem : Storage B) :
    ∀ p ∈ List.zipWith (fun M o => ((⟨M, flag, o⟩ : Ref), readBytes mem o M.size)) members (offsetsFrom c members),
      p.1.isConst = flag := by
  intro p hp
  obtain ⟨i, hi, rfl⟩ := List.mem_iff_getElem.mp hp
  simp

/-! ## Discovery -/

/-- Under the preconditions no assertion of `IsMemberConst` fails for a member
type. -/
theorem asserts_eq_nil_of_preconditions (A : Aggregate) (hpre : A.preconditions = true)
    (f : Field) (hf : f ∈ A.fields) : IsMemberConst.asserts A.toTarget f.type = [] := by
  simp only [Aggregate.preconditions, Bool.and_eq_true, List.all_eq_true, Bool.not_eq_true',
    decide_eq_true_eq] at hpre
  obtain ⟨⟨⟨h1, h2⟩, h3⟩, h4⟩ := hpre.2 f hf
  simp [IsMemberConst.asserts, Aggregate.toTarget, h1, h2, h3, h4]

/-- Under the preconditions no assertion fails for any initial run of members. -/
theorem flatMap_asserts_take (A : Aggregate) (hpre : A.preconditions = true) (n : Nat) :
    ((A.fields.take n).map Field.type).flatMap (IsMemberConst.asserts A.toTarget) = [] := by
  rw [List.flatMap_eq_nil_iff]
  intro M hM
  obtain ⟨f, hf, rfl⟩ := List.mem_map.mp hM
  exact asserts_eq_nil_of_preconditions A hpre f (List.mem_of_mem_take hf)

/-- On an aggregate that meets the preconditions `call` issues no rejection,
stops at the member count and reports the member types in order. -/
theorem call_aggregate (A : Aggregate) (hpre : A.preconditions = true) :
    ∀ depth n, n ≤ A.fields.length → A.fields.length < depth + n →
      (Detector.call A.toTarget depth n).diags = [] ∧
      (Detector.call A.toTarget depth n).arity = A.fields.length ∧
      (Detector.call A.toTarget depth n).members = A.fields.map Field.type := by
  intro depth
  induction depth with
  | zero => intro n h1 h2; omega
  | succ d ih =>
    intro n h1 h2
    by_cases hn : n + 1 ≤ A.fields.length
    · have hinit : A.toTarget.init (n + 1) = some ((A.fields.take (n + 1)).map Field.type) := by
        simp [Aggregate.toTarget, hn]
      obtain ⟨i1, i2, i3⟩ := ih (n + 1) hn (by omega)
      simp only [Detector.call, hinit, i1, i2, i3, flatMap_asserts_take A hpre]
      simp
    · have hk : n = A.fields.length := by omega
      subst hk
      have hinit : A.toTarget.init (A.fields.length + 1) = none := by
        simp [Aggregate.toTarget]
      have hinit0 : A.toTarget.init A.fields.length = some (A.fields.map Field.type) := by
        simp [Aggregate.toTarget]
      have hempty : 0 < A.fields.length ∨ A.toTarget.isEmpty = true := by
        rcases Nat.eq_zero_or_pos A.fields.length with h0 | h0
        · right
          have : A.fields = [] := List.length_eq_zero.mp (by omega)
          simp [Aggregate.toTarget, this]
        · left; exact h0
      have hflat : (A.fields.map Field.type).flatMap (IsMemberConst.asserts A.toTarget) = [] := by
        have := flatMap_asserts_take A hpre A.fields.length
        simpa using this
      simp only [Detector.call, hinit, hinit0, hempty, hflat]
      simp

/-- On an aggregate that meets the preconditions `foreachMember` runs the
lambda over the member types in declaration order, from cursor `0`. -/
theorem foreachMember_aggregate {σ B : Type} (A : Aggregate) (depth : Nat)
    (callback : Visitor σ B) (s : σ) (t : Storage B) (Member : TypeInfo)
    (hpre : A.preconditions = true) (hdepth : A.fields.length < depth) :
    foreachMember A.toTarget depth callback s t =
      Except.ok
        (((A.fields.map Field.type).foldl
            (fun acc M => foreachMember.lambda callback (M, IsMemberConst.value A.toTarget Member) acc)
            (⟨0, s, t⟩ : Walk σ B)).visitor,
         ((A.fields.map Field.type).foldl
            (fun acc M => foreachMember.lambda callback (M, IsMemberConst.value A.toTarget Member) acc)
            (⟨0, s, t⟩ : Walk σ B)).storage) := by
  obtain ⟨h1, _, h3⟩ := call_aggregate A hpre depth 0 (Nat.zero_le _) (by omega)
  have hpre2 := hpre
  simp only [Aggregate.preconditions, Bool.and_eq_true, Bool.not_eq_true'] at hpre2
  obtain ⟨⟨hs, hv⟩, _⟩ := hpre2
  have hs2 : A.toTarget.isStandardLayout = true := hs
  have hv2 : A.toTarget.isVolatile = false := hv
  simp only [foreachMember, foreachMemberType, h1, h3, hs2, hv2, Detector.operatorMember,
    IsMemberConst.value]
  simp

/-- When the computed offsets are the members' offsets, running the lambda is
the field-wise traversal. -/
theorem foldl_lambda_eq_visitFields {σ B : Type} (callback : Visitor σ B) (flag : Bool)
    (fields : List Field) (c : Int) (s : σ) (t : Storage B)
    (haddr : offsetsFrom c (fields.map Field.type) = fields.map Field.offset) :
    (((fields.map Field.type).foldl (fun acc M => foreachMember.lambda callback (M, flag) acc)
        (⟨c, s, t⟩ : Walk σ B)).visitor,
      ((fields.map Field.type).foldl (fun acc M => foreachMember.lambda callback (M, flag) acc)
        (⟨c, s, t⟩ : Walk σ B)).storage) = visitFields callback flag fields (s, t) := by
  induction fields generalizing c s t with
  | nil => simp [visitFields]
  | cons f rest ih =>
    simp only [List.map_cons, offsetsFrom, List.cons.injEq] at haddr
    obtain ⟨h1, h2⟩ := haddr
    simp only [List.map_cons, List.foldl_cons, visitFields]
    have hstep : foreachMember.lambda callback (f.type, flag) (⟨c, s, t⟩ : Walk σ B) =
        ⟨(nextOffset c f.type).2,
          (callback ⟨f.type, flag, f.offset⟩ (readBytes t f.offset f.type.size) s).1,
          match (callback ⟨f.type, flag, f.offset⟩ (readBytes t f.offset f.type.size) s).2 with
          | some v => if flag then t else writeBytes t f.offset f.type.size v
          | none => t⟩ := by
      simp only [foreachMember.lambda, h1]
    rw [hstep, ih _ _ _ h2]

/-- On every aggregate `call` stops at the member count and reports the member
types in order. -/
theorem call_aggregate_arity (A : Aggregate) :
    ∀ depth n, n ≤ A.fields.length → A.fields.length < depth + n →
      (Detector.call A.toTarget depth n).arity = A.fields.length ∧
      (Detector.call A.toTarget depth n).members = A.fields.map Field.type := by
  intro depth
  induction depth with
  | zero => intro n h1 h2; omega
  | succ d ih =>
    intro n h1 h2
    by_cases hn : n + 1 ≤ A.fields.length
    · have hinit : A.toTarget.init (n + 1) = some ((A.fields.take (n + 1)).map Field.type) := by
        simp [Aggregate.toTarget, hn]
      obtain ⟨i2, i3⟩ := ih (n + 1) hn (by omega)
      simp only [Detector.call, hinit, i2, i3]
      simp
    · have hk : n = A.fields.length := by omega
      subst hk
      have hinit : A.toTarget.init (A.fields.length + 1) = none := by
        simp [Aggregate.toTarget]
      have hinit0 : A.toTarget.init A.fields.length = some (A.fields.map Field.type) := by
        simp [Aggregate.toTarget]
      simp only [Detector.call, hinit, hinit0]
      simp

/-- Whatever the type, the recursion of `call` stops at the first count whose
successor is ill-formed. -/
theorem call_arity_of_first_ill_formed (T : Target) :
    ∀ depth n N, n ≤ N → (∀ m, n < m → m ≤ N → T.init m ≠ none) → T.init (N + 1) = none →
      N < depth + n → (Detector.call T depth n).arity = N := by
  intro depth
  induction depth with
  | zero => intro n N h1 _ _ h4; omega
  | succ d ih =>
    intro n N h1 h2 h3 h4
    rcases Nat.lt_or_ge n N with hlt | hge
    · cases hinit : T.init (n + 1) with
      | none => exact absurd hinit (h2 (n + 1) (Nat.lt_succ_self n) hlt)
      | some ms =>
        simp only [Detector.call, hinit]
        exact ih (n + 1) N hlt (fun m hm hmN => h2 m (by omega) hmN) h3 (by omega)
    · have hn : n = N := by omega
      subst hn
      cases h0 : T.init n <;> simp [Detector.call, h3, h0]

/-- No exact offset lies before the cursor the walk started from. -/
theorem exactOffsetsFrom_ge (members : List TypeInfo) (c : Nat)
    (hpos : ∀ M ∈ members, 0 < M.align) :
    ∀ o ∈ exactOffsetsFrom c members, c ≤ o := by
  induction members generalizing c with
  | nil => simp [exactOffsetsFrom]
  | cons M rest ih =>
    intro o ho
    simp only [exactOffsetsFrom, List.mem_cons] at ho
    have hM : 0 < M.align := hpos M (List.mem_cons_self _ _)
    have hge := roundUp_ge c M.align hM
    rcases ho with rfl | ho
    · exact hge
    · have := ih _ (fun M1 h1 => hpos M1 (List.mem_cons_of_mem _ h1)) o ho
      omega

/-- Every exact offset is a multiple of its member's alignment. -/
theorem exactOffsetsFrom_aligned (members : List TypeInfo) (c : Nat) :
    Aligned members (exactOffsetsFrom c members) := by
  induction members generalizing c with
  | nil => intro p hp; simp [exactOffsetsFrom] at hp
  | cons M rest ih =>
    intro p hp
    simp only [exactOffsetsFrom, List.zip_cons_cons, List.mem_cons] at hp
    rcases hp with rfl | hp
    · exact roundUp_dvd c M.align
    · exact ih _ p hp

/-- The exact storage ranges are disjoint and increasing. -/
theorem exactOffsetsFrom_disjoint (members : List TypeInfo) (c : Nat)
    (hpos : ∀ M ∈ members, 0 < M.align) :
    DisjointIncreasing members (exactOffsetsFrom c members) := by
  induction members generalizing c with
  | nil => simp [DisjointIncreasing, exactOffsetsFrom]
  | cons M rest ih =>
    have hrest : ∀ M1 ∈ rest, 0 < M1.align := fun M1 h1 => hpos M1 (List.mem_cons_of_mem _ h1)
    simp only [DisjointIncreasing, exactOffsetsFrom, List.zip_cons_cons, List.pairwise_cons]
    refine ⟨?_, ih _ hrest⟩
    intro q hq
    exact exactOffsetsFrom_ge rest _ hrest q.2 (List.of_mem_zip hq).2

/-- Below the `int` range the offsets of the lambda are aligned, the storage
ranges are disjoint and increasing, and the first offset is `0`. -/
theorem walkOffsets_invariants_of_fitsInt (members : List TypeInfo)
    (hpos : ∀ M ∈ members, 0 < M.align) (hfit : fitsInt 0 members = true) :
    Aligned members (walkOffsets members) ∧
    DisjointIncreasing members (walkOffsets members) ∧
    (members ≠ [] → (walkOffsets members).head? = some 0) := by
  have heq : walkOffsets members = exactOffsetsFrom 0 members := by
    rw [walkOffsets_eq_offsetsFrom]
    exact offsetsFrom_eq_exact members 0 (by norm_num) hfit
  rw [heq]
  refine ⟨exactOffsetsFrom_aligned members 0, exactOffsetsFrom_disjoint members 0 hpos, ?_⟩
  intro hne
  cases members with
  | nil => exact absurd rfl hne
  | cons M rest =>
    have hM : 0 < M.align := hpos M (List.mem_cons_self _ _)
    have h0 : (0 + M.align - 1) / M.align = 0 := Nat.div_eq_of_lt (by omega)
    simp only [exactOffsetsFrom, h0, List.head?_cons, Nat.zero_mul]

/-- The offsets of the lambda are always multiples of the alignment and the
first one is always `0`, whatever the sizes. -/
theorem walkOffsets_aligned (members : List TypeInfo) :
    Aligned members (walkOffsets members) := by
  rw [walkOffsets_eq_offsetsFrom]
  generalize (0 : Int) = c
  induction members generalizing c with
  | nil => intro p hp; simp [offsetsFrom] at hp
  | cons M rest ih =>
    intro p hp
    simp only [offsetsFrom, List.zip_cons_cons, List.mem_cons] at hp
    rcases hp with rfl | hp
    · simp only [nextOffset]
      have hle : ((intToSizeT c + M.align) % SIZE_RANGE + SIZE_RANGE - 1) % SIZE_RANGE
          / M.align * M.align ≤
          ((intToSizeT c + M.align) % SIZE_RANGE + SIZE_RANGE - 1) % SIZE_RANGE :=
        Nat.div_mul_le_self _ _
      have hlt : ((intToSizeT c + M.align) % SIZE_RANGE + SIZE_RANGE - 1) % SIZE_RANGE
          < SIZE_RANGE := Nat.mod_lt _ (by unfold SIZE_RANGE; norm_num)
      rw [Nat.mod_eq_of_lt (lt_of_le_of_lt hle hlt)]
      exact Dvd.intro_left _ rfl
    · exact ih _ p hp

/-- A layout without more padding than alignment requires has the exact
offsets of the cursor walk. -/
theorem exactOffsetsFrom_eq_of_naturalLayout (fields : List Field) (c : Nat)
    (hpos : ∀ f ∈ fields, 0 < f.type.align) (hnat : NaturalLayoutFrom c fields) :
    exactOffsetsFrom c (fields.map Field.type) = fields.map Field.offset := by
  induction fields generalizing c with
  | nil => rfl
  | cons f rest ih =>
    obtain ⟨⟨hdvd, hge, hleast⟩, hrest⟩ := hnat
    have hf : 0 < f.type.align := hpos f (List.mem_cons_self _ _)
    have heq : (c + f.type.align - 1) / f.type.align * f.type.align = f.offset :=
      Nat.le_antisymm (roundUp_least c _ _ hf hdvd hge)
        (hleast _ (roundUp_dvd c _) (roundUp_ge c _ hf))
    simp only [List.map_cons, exactOffsetsFrom, heq]
    rw [ih _ (fun g hg => hpos g (List.mem_cons_of_mem _ hg)) hrest]

/-- In a layout without more padding than alignment requires no field lies
before the cursor the layout started from. -/
theorem naturalLayout_ge (fields : List Field) (c : Nat) (hnat : NaturalLayoutFrom c fields) :
    ∀ g ∈ fields, c ≤ g.offset := by
  induction fields generalizing c with
  | nil => intro g hg; cases hg
  | cons f rest ih =>
    obtain ⟨⟨_, hge, _⟩, hrest⟩ := hnat
    intro g hg
    rcases List.mem_cons.mp hg with rfl | hg
    · exact hge
    · have := ih _ hrest g hg
      omega

/-- In a layout without more padding than alignment requires the members
follow one another without overlap. -/
theorem naturalLayout_pairwise (fields : List Field) (c : Nat)
    (hnat : NaturalLayoutFrom c fields) :
    fields.Pairwise (fun f g => f.offset + f.type.size ≤ g.offset) := by
  induction fields generalizing c with
  | nil => exact List.Pairwise.nil
  | cons f rest ih =>
    obtain ⟨_, hrest⟩ := hnat
    rw [List.pairwise_cons]
    exact ⟨fun g hg => naturalLayout_ge rest _ hrest g hg, ih _ hrest⟩

/-- Address identity below the `int` range: when the compiler lays the
members out without more padding than alignment requires and every running
end offset is below `2 ^ 31`, the offsets of the lambda are the members'
offsets. -/
theorem walkOffsets_eq_of_naturalLayout (fields : List Field)
    (hpos : ∀ f ∈ fields, 0 < f.type.align) (hnat : NaturalLayoutFrom 0 fields)
    (hfit : fitsInt 0 (fields.map Field.type) = true) :
    walkOffsets (fields.map Field.type) = fields.map Field.offset := by
  rw [walkOffsets_eq_offsetsFrom]
  exact (offsetsFrom_eq_exact _ 0 (by norm_num) hfit).trans
    (exactOffsetsFrom_eq_of_naturalLayout fields 0 hpos hnat)

/-- For `struct Huge { std::array<char, 4294967296> a; char b; }` the cursor
`2 ^ 32` is narrowed to the `int` `0`: the reference delivered for `b` has
offset `0`, while `b` lies at offset `2 ^ 32`. -/
theorem foreachMember_hugeStruct_offsets {B : Type} (t : Storage B) :
    ∃ seen, foreachMember hugeStruct.toTarget 3 recorder ([] : List (Ref × List B)) t =
        Except.ok (seen, t) ∧
      seen.map (fun p => p.1.offset) = [0, 0] ∧
      hugeStruct.fields.map Field.offset = [0, 2 ^ 32] := by
  have h := foreachMember_aggregate hugeStruct 3 (recorder : Visitor (List (Ref × List B)) B) [] t
    charType (by decide) (by decide)
  obtain ⟨_, h2⟩ := foldl_recorder (IsMemberConst.value hugeStruct.toTarget charType)
    (hugeStruct.fields.map Field.type) 0 ([] : List (Ref × List B)) t
  rw [h2] at h
  refine ⟨_, h, ?_, by decide⟩
  rw [foldl_recorder_offsets, List.map_nil, List.nil_append]
  decide

/-- For `struct A { int i; const K k; }`, where the assignment of `K` applies
to a const object, `A` stays move assignable and move constructible: the flag
is false and the reference delivered for the const member `k` is non-const. -/
theorem foreachMember_constAssignable_references {B : Type} (t : Storage B) :
    (∃ f ∈ constAssignable.fields, f.isConst = true) ∧
    IsMemberConst.value constAssignable.toTarget constAssignType = false ∧
    ∃ seen, foreachMember constAssignable.toTarget 3 recorder ([] : List (Ref × List B)) t =
        Except.ok (seen, t) ∧
      seen.map (fun p => p.1.isConst) = [false, false] := by
  refine ⟨by decide, by decide, ?_⟩
  have h := foreachMember_aggregate constAssignable 3
    (recorder : Visitor (List (Ref × List B)) B) [] t constAssignType (by decide) (by decide)
  obtain ⟨h1, h2⟩ := foldl_recorder (IsMemberConst.value constAssignable.toTarget constAssignType)
    (constAssignable.fields.map Field.type) 0 ([] : List (Ref × List B)) t
  rw [h1, h2, List.nil_append] at h
  exact ⟨_, h, rfl⟩

/-! ## The claims -/

/-- C1, as amended: for an aggregate that meets the compile-time
preconditions the visitor is called once per member, with the member types in
declaration order; and when every delivered address is the address of the
corresponding member, the call is the field-wise traversal of the declared
members in declaration order, each member handed over with its own value. -/
theorem foreachMember_declaration_order {σ B : Type} (A : Aggregate) (depth : Nat)
    (callback : Visitor σ B) (s : σ) (t : Storage B) (Member : TypeInfo)
    (hpre : A.preconditions = true) (hdepth : A.fields.length < depth) :
    (∃ seen, foreachMember A.toTarget depth recorder ([] : List (Ref × List B)) t =
        Except.ok (seen, t) ∧
      seen.map (fun p => p.1.type) = A.fields.map Field.type) ∧
    (walkOffsets (A.fields.map Field.type) = A.fields.map Field.offset →
      foreachMember A.toTarget depth callback s t =
        Except.ok (visitFields callback (IsMemberConst.value A.toTarget Member) A.fields (s, t))) := by
  constructor
  · have h := foreachMember_aggregate A depth (recorder : Visitor (List (Ref × List B)) B) [] t
      Member hpre hdepth
    obtain ⟨h1, h2⟩ := foldl_recorder (IsMemberConst.value A.toTarget Member)
      (A.fields.map Field.type) 0 ([] : List (Ref × List B)) t
    rw [h2] at h
    refine ⟨_, h, ?_⟩
    rw [h1, List.nil_append]
    exact zipWith_recorder_types _ _ _ _ (offsetsFrom_length _ _)
  · intro haddr
    rw [foreachMember_aggregate A depth callback s t Member hpre hdepth]
    rw [walkOffsets_eq_offsetsFrom] at haddr
    rw [foldl_lambda_eq_visitFields callback _ A.fields 0 s t haddr]

/-- Witness of C1, `TEST(simple, example)`: the stream receives
`"c, test, 42, "`. -/
theorem foreachMember_example_stream :
    ∃ t, foreachMember exampleStruct.toTarget 4 streamOut "" exampleInstance =
      Except.ok ("c, test, 42, ", t) := by
  have h := (foreachMember_declaration_order exampleStruct 4 streamOut "" exampleInstance
    charType (by decide) (by decide)).2 (by decide)
  refine ⟨(visitFields streamOut (IsMemberConst.value exampleStruct.toTarget charType)
    exampleStruct.fields ("", exampleInstance)).2, ?_⟩
  rw [h]
  have h1 : (visitFields streamOut (IsMemberConst.value exampleStruct.toTarget charType)
    exampleStruct.fields ("", exampleInstance)).1 = "c, test, 42, " := by decide
  rw [← h1]

/-- C1 as stated fails: for `struct Q { char a; alignas(2) char b; char c; char d; }`
the references have the offsets `0, 1, 2, 3`, so the third member handed to
the visitor is the storage of `b`, holding `'b'`, while the third declared
member is `c`, holding `'c'`. -/
theorem foreachMember_alignedChars_third :
    ∃ seen, foreachMember alignedChars.toTarget 5 recorder ([] : List (Ref × List Cell))
        alignedCharsInstance = Except.ok (seen, alignedCharsInstance) ∧
      seen.map (fun p => p.1.offset) = [0, 1, 2, 3] ∧
      (seen.map (fun p => p.2))[2]? = some [Cell.first (Value.char 'b')] ∧
      (alignedChars.fields.map
        (fun f => readBytes alignedCharsInstance f.offset f.type.size))[2]? =
        some [Cell.first (Value.char 'c')] := by
  have h := foreachMember_aggregate alignedChars 5
    (recorder : Visitor (List (Ref × List Cell)) Cell) [] alignedCharsInstance charType
    (by decide) (by decide)
  obtain ⟨h1, h2⟩ := foldl_recorder (IsMemberConst.value alignedChars.toTarget charType)
    (alignedChars.fields.map Field.type) 0 ([] : List (Ref × List Cell)) alignedCharsInstance
  rw [h1, h2] at h
  exact ⟨_, h, by decide, by decide, by decide⟩

/-- C2: for an aggregate that meets the compile-time preconditions the
discovered sequence has as many entries as the aggregate has members, the
visitor is invoked exactly that many times, and for an aggregate without
members it is not invoked. -/
theorem foreachMember_invocation_count {σ B : Type} (A : Aggregate) (depth : Nat)
    (callback : Visitor σ B) (s : σ) (t : Storage B)
    (hpre : A.preconditions = true) (hdepth : A.fields.length < depth) :
    (Detector.call A.toTarget depth 0).members.length = A.fields.length ∧
    (∃ s1 t1, foreachMember A.toTarget depth (countCalls callback) (s, 0) t =
      Except.ok ((s1, A.fields.length), t1)) ∧
    (A.fields = [] → foreachMember A.toTarget depth callback s t = Except.ok (s, t)) := by
  refine ⟨?_, ?_, ?_⟩
  · obtain ⟨_, _, h3⟩ := call_aggregate A hpre depth 0 (Nat.zero_le _) (by omega)
    rw [h3, List.length_map]
  · have h := foreachMember_aggregate A depth (countCalls callback) (s, 0) t charType hpre hdepth
    have hc := foldl_countCalls callback (IsMemberConst.value A.toTarget charType)
      (A.fields.map Field.type) (⟨0, (s, 0), t⟩ : Walk (σ × Nat) B)
    simp only [List.length_map, Nat.zero_add] at hc
    rw [h, ← hc]
    exact ⟨_, _, rfl⟩
  · intro hnil
    rw [foreachMember_aggregate A depth callback s t charType hpre hdepth, hnil]
    rfl

/-- Witness of C2: `TEST(simple, plain_struct)` makes six invocations,
`TEST(simple, empty)` none. -/
theorem foreachMember_count_plain_and_empty :
    (∃ s1 t1, foreachMember plainStruct.toTarget 7 (countCalls checker) (0, 0) plainInstance =
      Except.ok ((s1, 6), t1)) ∧
    foreachMember emptyStruct.toTarget 1 checker 0 blankStorage = Except.ok (0, blankStorage) :=
  ⟨(foreachMember_invocation_count plainStruct 7 checker 0 plainInstance (by decide)
      (by decide)).2.1,
   (foreachMember_invocation_count emptyStruct 1 checker 0 blankStorage (by decide)
      (by decide)).2.2 rfl⟩

/-- C3, as amended: for an aggregate that meets the compile-time
preconditions, whose members each lie at the least multiple of their type's
alignment that is not before the end of the preceding member, and whose
running end offsets stay below `2 ^ 31`, the reference delivered for the k-th
member has the type and the offset of the k-th member. -/
theorem foreachMember_addresses_of_naturalLayout {B : Type} (A : Aggregate) (depth : Nat)
    (t : Storage B) (hpre : A.preconditions = true) (hdepth : A.fields.length < depth)
    (hpos : ∀ f ∈ A.fields, 0 < f.type.align) (hnat : NaturalLayoutFrom 0 A.fields)
    (hfit : fitsInt 0 (A.fields.map Field.type) = true) :
    ∃ seen, foreachMember A.toTarget depth recorder ([] : List (Ref × List B)) t =
        Except.ok (seen, t) ∧
      seen.map (fun p => p.1.type) = A.fields.map Field.type ∧
      seen.map (fun p => p.1.offset) = A.fields.map Field.offset := by
  have h := foreachMember_aggregate A depth (recorder : Visitor (List (Ref × List B)) B) [] t
    charType hpre hdepth
  obtain ⟨h1, h2⟩ := foldl_recorder (IsMemberConst.value A.toTarget charType)
    (A.fields.map Field.type) 0 ([] : List (Ref × List B)) t
  rw [h2] at h
  refine ⟨_, h, ?_, ?_⟩
  · rw [h1, List.nil_append]
    exact zipWith_recorder_types _ _ _ _ (offsetsFrom_length _ _)
  · rw [foldl_recorder_offsets, List.map_nil, List.nil_append, ← walkOffsets_eq_offsetsFrom]
    exact walkOffsets_eq_of_naturalLayout A.fields hpos hnat hfit

/-- Witness of C3, `TEST(documentation, example)`: the six references have
the offsets of `t.d`, `t.v`, `t.p`, `t.ptr`, `t.a` and `t.t`. -/
theorem foreachMember_documentation_addresses :
    ∃ seen, foreachMember documentationStruct.toTarget 7 recorder ([] : List (Ref × List Cell))
        blankStorage = Except.ok (seen, blankStorage) ∧
      seen.map (fun p => p.1.offset) = [0, 8, 32, 40, 48, 56] := by
  have hnat : NaturalLayoutFrom 0 documentationStruct.fields := by
    simp only [NaturalLayoutFrom, documentationStruct, doubleType, errorVectorType,
      uniquePtrType, pointerType, optionalHolderType, threadType]
    refine ⟨⟨?_, ?_, ?_⟩, ⟨?_, ?_, ?_⟩, ⟨?_, ?_, ?_⟩, ⟨?_, ?_, ?_⟩, ⟨?_, ?_, ?_⟩,
      ⟨?_, ?_, ?_⟩, trivial⟩ <;> omega
  obtain ⟨seen, h, _, h2⟩ := foreachMember_addresses_of_naturalLayout documentationStruct 7
    blankStorage (by decide) (by decide) (by decide) hnat (by decide)
  exact ⟨seen, h, h2⟩

/-- C3 as stated fails: for `struct S { char c; alignas(16) int i; }` the
reference delivered for `i` has offset `4`, while `i` lies at offset `16`. -/
theorem foreachMember_overAligned_offsets :
    ∃ seen, foreachMember overAligned.toTarget 3 recorder ([] : List (Ref × List Cell))
        overAlignedInstance = Except.ok (seen, overAlignedInstance) ∧
      seen.map (fun p => p.1.offset) = [0, 4] ∧
      overAligned.fields.map Field.offset = [0, 16] := by
  have h := foreachMember_aggregate overAligned 3
    (recorder : Visitor (List (Ref × List Cell)) Cell) [] overAlignedInstance charType
    (by decide) (by decide)
  obtain ⟨_, h2⟩ := foldl_recorder (IsMemberConst.value overAligned.toTarget charType)
    (overAligned.fields.map Field.type) 0 ([] : List (Ref × List Cell)) overAlignedInstance
  rw [h2] at h
  refine ⟨_, h, ?_, by decide⟩
  rw [foldl_recorder_offsets, List.map_nil, List.nil_append]
  decide

/-- C4, as amended: when the members lie where the walk places them (each at
the least multiple of its type's alignment that is not before the end of the
preceding member, with running end offsets below `2 ^ 31`) and the delivered
references are non-const, then after the call every member the visitor
assigned to holds the assigned value and every other member holds its
previous value. -/
theorem foreachMember_mutation_of_naturalLayout {σ B : Type} (A : Aggregate) (depth : Nat)
    (callback : Visitor σ B) (s : σ) (t : Storage B) (Member : TypeInfo)
    (hpre : A.preconditions = true) (hdepth : A.fields.length < depth)
    (hflag : IsMemberConst.value A.toTarget Member = false)
    (hpos : ∀ f ∈ A.fields, 0 < f.type.align) (hnat : NaturalLayoutFrom 0 A.fields)
    (hfit : fitsInt 0 (A.fields.map Field.type) = true) :
    ∃ s1 t1, foreachMember A.toTarget depth callback s t = Except.ok (s1, t1) ∧
      s1 = (visitValues callback
        (A.fields.map (fun f => (f, readBytes t f.offset f.type.size))) s).1 ∧
      A.fields.map (fun f => readBytes t1 f.offset f.type.size) =
        (visitValues callback
          (A.fields.map (fun f => (f, readBytes t f.offset f.type.size))) s).2 := by
  have h := foreachMember_aggregate A depth callback s t Member hpre hdepth
  have haddr := walkOffsets_eq_of_naturalLayout A.fields hpos hnat hfit
  rw [walkOffsets_eq_offsetsFrom] at haddr
  rw [foldl_lambda_eq_visitFields callback _ A.fields 0 s t haddr, hflag] at h
  obtain ⟨h1, h2⟩ := visitFields_eq_visitValues callback A.fields s t
    (naturalLayout_pairwise A.fields 0 hnat)
  exact ⟨_, _, h, h1, h2⟩

/-- Witness of C4, `TEST(simple, plain_struct)`: the visitor is invoked six
times, `a.i` becomes `42` and the other members keep their values. -/
theorem foreachMember_plainStruct_mutation :
    ∃ t1, foreachMember plainStruct.toTarget 7 checker 0 plainInstance = Except.ok (6, t1) ∧
      plainStruct.fields.map (fun f => readBytes t1 f.offset f.type.size) =
        [represent (Value.int 42) 4, represent (Value.string "hello") 32,
          represent (Value.char 'a') 1, represent (Value.vector [3, 4, 5]) 24,
          represent (Value.double 5) 8, represent (Value.string "world") 32] := by
  have hnat : NaturalLayoutFrom 0 plainStruct.fields := by
    simp only [NaturalLayoutFrom, plainStruct, intType, stringType, charType, vectorType,
      doubleType]
    refine ⟨⟨?_, ?_, ?_⟩, ⟨?_, ?_, ?_⟩, ⟨?_, ?_, ?_⟩, ⟨?_, ?_, ?_⟩, ⟨?_, ?_, ?_⟩,
      ⟨?_, ?_, ?_⟩, trivial⟩ <;> omega
  obtain ⟨s1, t1, h, h1, h2⟩ := foreachMember_mutation_of_naturalLayout plainStruct 7 checker 0
    plainInstance intType (by decide) (by decide) (by decide) (by decide) hnat (by decide)
  refine ⟨t1, ?_, ?_⟩
  · rw [h, h1]; rfl
  · rw [h2]; decide

/-- C4 as stated fails: for `struct Y { char a; alignas(4) char b; char c; int d; }`
with `d = 100` the `int &` handed to the visitor covers the bytes `4` to `7`;
after the visitor assigned `42` through it, `d` still holds `100`, and `b`
and `c`, which the visitor did not assign to, no longer hold `'b'` and `'c'`. -/
theorem foreachMember_alignedMixed_mutation :
    ∃ t1, foreachMember alignedMixed.toTarget 5 checker 0 alignedMixedInstance =
        Except.ok (4, t1) ∧
      readBytes t1 8 4 = represent (Value.int 100) 4 ∧
      readBytes alignedMixedInstance 4 1 = [Cell.first (Value.char 'b')] ∧
      readBytes t1 4 1 = [Cell.first (Value.int 42)] ∧
      readBytes alignedMixedInstance 5 1 = [Cell.first (Value.char 'c')] ∧
      readBytes t1 5 1 = [Cell.rest] := by
  have h := foreachMember_aggregate alignedMixed 5 checker 0 alignedMixedInstance charType
    (by decide) (by decide)
  have hv : ((alignedMixed.fields.map Field.type).foldl
      (fun acc M => foreachMember.lambda checker
        (M, IsMemberConst.value alignedMixed.toTarget charType) acc)
      (⟨0, 0, alignedMixedInstance⟩ : Walk Nat Cell)).visitor = 4 := by decide
  rw [hv] at h
  refine ⟨_, h, ?_, by decide, ?_, by decide, ?_⟩
  · set_option maxRecDepth 4000 in decide
  · set_option maxRecDepth 4000 in decide
  · set_option maxRecDepth 4000 in decide

/-- C5, as amended: the flag `IsMemberConst<T, Member>::value` does not depend
on `Member`, and the delivered references are all const-qualified or all
non-const.  They are all const when `T` is const, or not move assignable, or
not move constructible; they are all non-const when `T` is not const, has no
const member, and is move assignable and move constructible. -/
theorem foreachMember_constness {B : Type} (A : Aggregate) (depth : Nat) (t : Storage B)
    (hpre : A.preconditions = true) (hdepth : A.fields.length < depth) :
    (∀ M M1, IsMemberConst.value A.toTarget M = IsMemberConst.value A.toTarget M1) ∧
    ∃ seen, foreachMember A.toTarget depth recorder ([] : List (Ref × List B)) t =
        Except.ok (seen, t) ∧
      seen.length = A.fields.length ∧
      (∀ p ∈ seen, ∀ q ∈ seen, p.1.isConst = q.1.isConst) ∧
      ((A.isConst = true ∨ A.isMoveAssignable = false ∨ A.isMoveConstructible = false) →
        ∀ p ∈ seen, p.1.isConst = true) ∧
      ((A.isConst = false ∧ A.isMoveAssignable = true ∧ A.isMoveConstructible = true ∧
          ∀ f ∈ A.fields, f.isConst = false) →
        ∀ p ∈ seen, p.1.isConst = false) := by
  refine ⟨fun _ _ => rfl, ?_⟩
  have h := foreachMember_aggregate A depth (recorder : Visitor (List (Ref × List B)) B) [] t
    charType hpre hdepth
  obtain ⟨h1, h2⟩ := foldl_recorder (IsMemberConst.value A.toTarget charType)
    (A.fields.map Field.type) 0 ([] : List (Ref × List B)) t
  rw [h1, h2, List.nil_append] at h
  have hall := foldl_recorder_isConst (IsMemberConst.value A.toTarget charType)
    (A.fields.map Field.type) 0 t
  have hval : IsMemberConst.value A.toTarget charType =
      (A.isConst || !A.isMoveAssignable || !A.isMoveConstructible) := rfl
  refine ⟨_, h, ?_, ?_, ?_, ?_⟩
  · simp [offsetsFrom_length]
  · intro p hp q hq
    rw [hall p hp, hall q hq]
  · intro hc p hp
    rw [hall p hp, hval]
    rcases hc with hc | hc | hc <;> simp [hc]
  · rintro ⟨hc1, hc2, hc3, _⟩ p hp
    rw [hall p hp, hval]
    simp [hc1, hc2, hc3]

/-- Witness of C5, `TEST(constness, has_const_member)` and
`TEST(constness, normal)`: with the const member both references are const
although only `t` is declared const; without it both references are
non-const for `a` and const for the instance `ca` of type `const A`. -/
theorem foreachMember_constness_tests :
    (∃ seen, foreachMember hasConstMember.toTarget 3 recorder ([] : List (Ref × List Cell))
        blankStorage = Except.ok (seen, blankStorage) ∧
      seen.length = 2 ∧ ∀ p ∈ seen, p.1.isConst = true) ∧
    (∃ seen, foreachMember normalStruct.toTarget 3 recorder ([] : List (Ref × List Cell))
        blankStorage = Except.ok (seen, blankStorage) ∧
      seen.length = 2 ∧ ∀ p ∈ seen, p.1.isConst = false) ∧
    (∃ seen, foreachMember normalStructConst.toTarget 3 recorder ([] : List (Ref × List Cell))
        blankStorage = Except.ok (seen, blankStorage) ∧
      seen.length = 2 ∧ ∀ p ∈ seen, p.1.isConst = true) := by
  obtain ⟨seen1, h1, hlen1, _, hconst1, _⟩ :=
    (foreachMember_constness hasConstMember 3 blankStorage (by decide) (by decide)).2
  obtain ⟨seen2, h2, hlen2, _, _, hmut2⟩ :=
    (foreachMember_constness normalStruct 3 blankStorage (by decide) (by decide)).2
  obtain ⟨seen3, h3, hlen3, _, hconst3, _⟩ :=
    (foreachMember_constness normalStructConst 3 blankStorage (by decide) (by decide)).2
  exact ⟨⟨seen1, h1, hlen1, hconst1 (Or.inr (Or.inl rfl))⟩,
    ⟨seen2, h2, hlen2, hmut2 ⟨rfl, rfl, rfl, by decide⟩⟩,
    ⟨seen3, h3, hlen3, hconst3 (Or.inl rfl)⟩⟩

/-- C5 as stated fails: `struct A { int i; M m; }`, where `M` has a deleted
move assignment, is not const and has no const member, yet the flag is true
and both delivered references are const. -/
theorem moveOnlyMember_const_references :
    ¬ (IsMemberConst.value moveOnlyMember.toTarget intType = true ↔
        (moveOnlyMember.isConst = true ∨ ∃ f ∈ moveOnlyMember.fields, f.isConst = true)) ∧
    ∃ seen, foreachMember moveOnlyMember.toTarget 3 recorder ([] : List (Ref × List Cell))
        blankStorage = Except.ok (seen, blankStorage) ∧
      seen.map (fun p => p.1.isConst) = [true, true] := by
  refine ⟨by decide, ?_⟩
  have h := foreachMember_aggregate moveOnlyMember 3 (recorder : Visitor (List (Ref × List Cell)) Cell)
    [] blankStorage intType (by decide) (by decide)
  obtain ⟨h1, h2⟩ := foldl_recorder (IsMemberConst.value moveOnlyMember.toTarget intType)
    (moveOnlyMember.fields.map Field.type) 0 ([] : List (Ref × List Cell)) blankStorage
  rw [h1, h2, List.nil_append] at h
  refine ⟨_, h, ?_⟩
  rfl

/-- C7, as amended: for an aggregate with `k` members the recursion of
`Detector::call` stops at `N = k`; initialisation from `n` probes is
well-formed exactly for `n ≤ k`, so `N` is the largest well-formed count and
the first one whose successor is ill-formed, and `T{(I, *this)...}` converts
one probe to each member type, in order. -/
theorem call_stops_at_member_count (A : Aggregate) (depth : Nat)
    (hdepth : A.fields.length < depth) :
    (Detector.call A.toTarget depth 0).arity = A.fields.length ∧
    (Detector.call A.toTarget depth 0).members = A.fields.map Field.type ∧
    (∀ n, (A.toTarget.init n).isSome = true ↔ n ≤ (Detector.call A.toTarget depth 0).arity) ∧
    A.toTarget.init ((Detector.call A.toTarget depth 0).arity + 1) = none := by
  obtain ⟨h1, h2⟩ := call_aggregate_arity A depth 0 (Nat.zero_le _) (by omega)
  refine ⟨h1, h2, ?_, ?_⟩
  · intro n
    rw [h1]
    by_cases hn : n ≤ A.fields.length <;> simp [Aggregate.toTarget, hn]
  · rw [h1]
    simp [Aggregate.toTarget]

/-- Witness of C7: for the three-member structure of `TEST(simple, example)`
the recursion stops at `3`. -/
theorem call_exampleStruct_arity :
    (Detector.call exampleStruct.toTarget 4 0).arity = 3 :=
  (call_stops_at_member_count exampleStruct 4 (by decide)).1

/-- C7 as stated fails: for the structure of `TEST(simple, example)` the
recursion stops at `3`, while initialisation from `0` probes and from `1`
probe is well-formed, so `3` is not the smallest well-formed count. -/
theorem call_arity_not_smallest_valid :
    (Detector.call exampleStruct.toTarget 4 0).arity = 3 ∧
    (exampleStruct.toTarget.init 0).isSome = true ∧
    (exampleStruct.toTarget.init 1).isSome = true ∧
    ¬ (∀ n, (exampleStruct.toTarget.init n).isSome = true →
        (Detector.call exampleStruct.toTarget 4 0).arity ≤ n) := by
  refine ⟨by decide, by decide, by decide, ?_⟩
  intro h
  exact absurd (h 1 (by decide)) (by decide)

/-- C9 at `std::array<char, 4294967296>` followed by `char`: the cursor
`2 ^ 32` is narrowed to the `int` `0`, both offsets are `0`, and the second
member's range is not behind the first one's. -/
theorem walkOffsets_hugeStruct_overlap :
    walkOffsets [bigArrayType, charType] = [0, 0] ∧
    ¬ DisjointIncreasing [bigArrayType, charType] (walkOffsets [bigArrayType, charType]) := by
  refine ⟨by decide, ?_⟩
  unfold DisjointIncreasing
  decide

end ForeachMember
